import Mathlib

/-!
Verification of the snapshot-comparison core of URA_Scraper
(src/ura_tracker_with_form.py): identifier-column inference
(identify_key_columns, lines 140-174) and the snapshot differ plus report
emission inside compare_excel_files (lines 443-517).

Cells are modelled as Option values: `none` models a pandas missing value
(NaN).  pandas `nunique` excludes missing values from the count, while
`duplicated` treats two missing values as equal; both behaviours are
reproduced below.  Snapshots are generic in the scalar type of cells.
-/

set_option linter.unusedSectionVars false
set_option linter.unusedVariables false

namespace URA

variable {α : Type} [DecidableEq α]
variable {β : Type} [DecidableEq β]

/-- A cell of a tabular snapshot: `some v` is a scalar value, `none` is a
pandas missing value (NaN). -/
abbrev Cell (α : Type) := Option α

/-- A row maps column names to cells (a pandas row viewed as a record). -/
abbrev Row (α : Type) := List (String × Cell α)

/-- A tabular snapshot: a DataFrame given by its column list and its rows
in order. -/
structure Snapshot (α : Type) where
  cols : List String
  rows : List (Row α)
deriving DecidableEq

/-- Value of column `c` in row `r`.  A column absent from the row reads as
a missing value; rows of a well-formed snapshot carry every column. -/
def cellAt (r : Row α) (c : String) : Cell α :=
  match r.find? (fun p => p.1 == c) with
  | some p => p.2
  | none => none

/-- df[c]: column `c` of the snapshot as the list of its cells. -/
def colValues (s : Snapshot α) (c : String) : List (Cell α) :=
  s.rows.map (fun r => cellAt r c)

/-- Keep the first occurrence of each element and drop later repeats, the
order pandas drop_duplicates uses; `seen` accumulates elements already
emitted. -/
def dedupFirstAux [DecidableEq β] (seen : List β) : List β → List β
  | [] => []
  | x :: xs =>
    if x ∈ seen then dedupFirstAux seen xs
    else x :: dedupFirstAux (x :: seen) xs

/-- Distinct elements of a list in first-occurrence order. -/
def dedupFirst (l : List β) : List β := dedupFirstAux [] l

/-- df.duplicated(...).sum(): the number of positions whose value equals
the value at some earlier position; `seen` accumulates values already
scanned. -/
def dupMarks (seen : List β) : List β → Nat
  | [] => 0
  | x :: xs => (if x ∈ seen then 1 else 0) + dupMarks (x :: seen) xs

/-- Total number of duplicated positions of a list, as
df.duplicated().sum() counts them. -/
def duplicatedSum (l : List β) : Nat := dupMarks [] l

/-- df[c].nunique(): the number of distinct non-missing values of column
`c` (pandas excludes NaN from this count). -/
def nunique (s : Snapshot α) (c : String) : Nat :=
  (dedupFirst ((colValues s c).filterMap id)).length

/-- The id_patterns list of identify_key_columns (line 143). -/
def id_patterns : List String :=
  ["id", "key", "code", "no", "number", "lot", "name", "location"]

/-- Lower-cased character list of a name, modelling str.lower(). -/
def lowerName (s : String) : List Char := s.data.map Char.toLower

/-- Contiguous-subsequence test, modelling Python's substring operator
`pattern in text`. -/
def containsSeq (p : List Char) : List Char → Bool
  | [] => p.isEmpty
  | x :: xs => p.isPrefixOf (x :: xs) || containsSeq p xs

/-- Lines 148-152: pattern.lower() in col.lower() for some identifier
pattern. -/
def matchesIdPattern (c : String) : Bool :=
  id_patterns.any (fun p => containsSeq (lowerName p) (lowerName c))

/-- The potential_keys list (lines 145-152): columns whose name contains
an identifier pattern, in column order, each appended at most once (the
inner loop breaks on the first matching pattern). -/
def potentialKeys (s : Snapshot α) : List String :=
  s.cols.filter matchesIdPattern

/-- identify_key_columns returns either a list of column names or, from
the degenerate combination scan at lines 161-165, a bare column name (a
Python str). -/
inductive PyKey where
  | asList : List String → PyKey
  | asStr : String → PyKey
deriving DecidableEq

/-- How callers (DataFrame.set_index) read a PyKey: a bare name keys the
single column it names. -/
def keyColsOf : PyKey → List String
  | PyKey.asList l => l
  | PyKey.asStr c => [c]

/-- Result of inference, together with whether the warning of line 173
("No unique identifier columns found") was printed. -/
structure KeyInference where
  key : PyKey
  warned : Bool
deriving DecidableEq

/-- Lines 161-165.  For i in range(2, len(potential_keys)+1) the inner
loop runs over pd.Series(potential_keys).drop_duplicates().tolist() -
the deduplicated candidate names themselves, not combinations of size i -
and returns the first name whose single column has duplicated(subset=
name).sum() == 0.  The loop variable i is unused, so every outer
iteration repeats the same scan. -/
def comboScan (s : Snapshot α) (pk : List String) : Option String :=
  (List.range' 2 (pk.length - 1)).findSome? (fun _ =>
    (dedupFirst pk).find? (fun c => duplicatedSum (colValues s c) == 0))

/-- Lines 167-174: fall back to scanning every column for single-column
uniqueness; if none is unique, print the warning and return the full
column list. -/
def fallbackScan (s : Snapshot α) : KeyInference :=
  match s.cols.find? (fun c => nunique s c == s.rows.length) with
  | some c => ⟨PyKey.asList [c], false⟩
  | none => ⟨PyKey.asList s.cols, true⟩

/-- identify_key_columns (lines 140-174). -/
def identify_key_columns (s : Snapshot α) : KeyInference :=
  let pk := potentialKeys s
  if pk.isEmpty then fallbackScan s
  else
    match pk.find? (fun c => nunique s c == s.rows.length) with
    | some c => ⟨PyKey.asList [c], false⟩
    | none =>
      match comboScan s pk with
      | some c => ⟨PyKey.asStr c, false⟩
      | none => fallbackScan s

/-- Key of a row under a key column list: the tuple of its key-column
cells, an entry of the DataFrame.set_index index. -/
def rowKey (kc : List String) (r : Row α) : List (Cell α) :=
  kc.map (fun c => cellAt r c)

/-- The index of set_index(key_columns): one key per row, in row order. -/
def snapshotKeys (kc : List String) (s : Snapshot α) : List (List (Cell α)) :=
  s.rows.map (fun r => rowKey kc r)

/-- Index.difference (line 490): the values of `a` not occurring in `b`.
pandas returns them sorted and without repeats; only membership is used
downstream, so the result is kept in first-occurrence order here. -/
def indexDiff (a b : List (List (Cell α))) : List (List (Cell α)) :=
  dedupFirst (a.filter (fun k => decide (k ∉ b)))

/-- Lines 486-491: the rows of the newer snapshot whose key is absent
from the older snapshot's keys, in the newer snapshot's row order. -/
def newEntriesOf (kc : List String) (newer older : Snapshot α) : List (Row α) :=
  newer.rows.filter (fun r =>
    decide (rowKey kc r ∈ indexDiff (snapshotKeys kc newer) (snapshotKeys kc older)))

/-- Line 464: set(newer.columns) == set(older.columns). -/
def sameColSet (n o : Snapshot α) : Bool :=
  n.cols.all (fun c => decide (c ∈ o.cols)) &&
    o.cols.all (fun c => decide (c ∈ n.cols))

/-- set(a) - set(b) (lines 466-467), in first-occurrence order: Python
set order is unspecified and only membership matters downstream. -/
def onlyInFirst (a b : List String) : List String :=
  dedupFirst (a.filter (fun c => decide (c ∉ b)))

/-- set(a) & set(b) (line 475), in first-occurrence order of `a`. -/
def commonColumns (a b : List String) : List String :=
  dedupFirst (a.filter (fun c => decide (c ∈ b)))

/-- df[common] (lines 476-477): restrict a snapshot to the given columns,
in that order. -/
def selectCols (s : Snapshot α) (cs : List String) : Snapshot α :=
  ⟨cs, s.rows.map (fun r => cs.map (fun c => (c, cellAt r c)))⟩

/-- Outcome of compare_excel_files up to the diff (lines 443-491): the
dropped-column diagnostics, the two frames actually compared, the
inferred key and the new-entry rows. -/
structure CompareResult (α : Type) where
  droppedNewer : List String
  droppedOlder : List String
  restrictedNewer : Snapshot α
  restrictedOlder : Snapshot α
  inference : KeyInference
  keyCols : List String
  newEntries : List (Row α)
deriving DecidableEq

/-- compare_excel_files, lines 464-491: on a column-set mismatch both
frames are cut down to the common columns and the dropped names are
reported as diagnostics; the key is inferred from the (possibly
restricted) newer frame, and the diff runs on the restricted frames. -/
def compare (newer older : Snapshot α) : CompareResult α :=
  if sameColSet newer older then
    let inf := identify_key_columns newer
    let kc := keyColsOf inf.key
    ⟨[], [], newer, older, inf, kc, newEntriesOf kc newer older⟩
  else
    let common := commonColumns newer.cols older.cols
    let rn := selectCols newer common
    let ro := selectCols older common
    let inf := identify_key_columns rn
    let kc := keyColsOf inf.key
    ⟨onlyInFirst newer.cols older.cols, onlyInFirst older.cols newer.cols,
      rn, ro, inf, kc, newEntriesOf kc rn ro⟩

/-- The report of lines 503-517: the numeric summary entries of lines
507-513 and the detail sheet rows of lines 516-517. -/
structure Report (α : Type) where
  rowsInNewer : Nat
  rowsInOlder : Nat
  newEntriesFound : Nat
  detail : List (Row α)
deriving DecidableEq

/-- Lines 503-517: a report is written only when new entries were found;
its summary counts come from the (restricted) frames and the diff, and
its detail sheet is exactly the diff. -/
def emitReport (r : CompareResult α) : Option (Report α) :=
  if 0 < r.newEntries.length then
    some ⟨r.restrictedNewer.rows.length, r.restrictedOlder.rows.length,
      r.newEntries.length, r.newEntries⟩
  else none

/-! Concrete snapshots used by the claim theorems below. -/

/-- Three rows over candidate columns id, code and a non-candidate x: no
single candidate is unique, but the pair (id, code) is composite-unique. -/
def exC1 : Snapshot Nat :=
  ⟨["id", "code", "x"],
   [[("id", some 1), ("code", some 1), ("x", some 0)],
    [("id", some 1), ("code", some 2), ("x", some 0)],
    [("id", some 2), ("code", some 2), ("x", some 0)]]⟩

/-- Newer snapshot with an extra Notes column. -/
def exC2newer : Snapshot Nat :=
  ⟨["id", "Notes"],
   [[("id", some 1), ("Notes", some 10)],
    [("id", some 2), ("Notes", some 20)]]⟩

/-- Older snapshot lacking the Notes column. -/
def exC2older : Snapshot Nat :=
  ⟨["id"], [[("id", some 1)]]⟩

/-- Candidate columns id and no each hold a missing value, the
non-candidate x is the only column whose distinct-value count equals the
row count. -/
def exC3 : Snapshot Nat :=
  ⟨["id", "no", "x"],
   [[("id", some 1), ("no", some 2), ("x", some 1)],
    [("id", none), ("no", none), ("x", some 2)]]⟩

/-- A snapshot with a unique id column. -/
def exUnique : Snapshot Nat :=
  ⟨["id"], [[("id", some 1)], [("id", some 2)]]⟩

/-- Newer snapshot for the column-mismatch scenario. -/
def exC4newer : Snapshot Nat :=
  ⟨["id", "Notes"], [[("id", some 1), ("Notes", some 5)]]⟩

/-- Older snapshot for the column-mismatch scenario, with its own extra
column. -/
def exC4older : Snapshot Nat :=
  ⟨["id", "Old"], [[("id", some 1), ("Old", some 7)]]⟩

/-- Newer snapshot holding the key id=5 twice. -/
def exC6newer : Snapshot Nat :=
  ⟨["id", "v"],
   [[("id", some 5), ("v", some 1)],
    [("id", some 5), ("v", some 2)]]⟩

/-- Older snapshot without the key id=5. -/
def exC6older : Snapshot Nat :=
  ⟨["id", "v"], [[("id", some 1), ("v", some 1)]]⟩

/-- A zero-row snapshot with one column. -/
def exEmpty : Snapshot Nat := ⟨["id"], []⟩

/-- Two identical rows: no column and no combination is unique. -/
def exC9 : Snapshot Nat :=
  ⟨["id"], [[("id", some 1)], [("id", some 1)]]⟩

/-- Newer snapshot for the report-consistency witness. -/
def exC10newer : Snapshot Nat :=
  ⟨["id"], [[("id", some 1)], [("id", some 2)]]⟩

/-- Older snapshot for the report-consistency witness. -/
def exC10older : Snapshot Nat :=
  ⟨["id"], [[("id", some 1)]]⟩

/-! Helper lemmas about the list primitives of the embedding. -/

theorem mem_dedupFirstAux (a : β) (seen l : List β) :
    a ∈ dedupFirstAux seen l ↔ a ∈ l ∧ a ∉ seen := by
  induction l generalizing seen with
  | nil => simp [dedupFirstAux]
  | cons x xs ih =>
    simp only [dedupFirstAux]
    by_cases hx : x ∈ seen
    · rw [if_pos hx, ih]
      constructor
      · rintro ⟨h1, h2⟩
        exact ⟨List.mem_cons_of_mem x h1, h2⟩
      · rintro ⟨h1, h2⟩
        rcases List.mem_cons.mp h1 with rfl | h1'
        · exact absurd hx h2
        · exact ⟨h1', h2⟩
    · rw [if_neg hx]
      constructor
      · intro h
        rcases List.mem_cons.mp h with rfl | h'
        · exact ⟨List.mem_cons_self a xs, hx⟩
        · obtain ⟨h1, h2⟩ := (ih (x :: seen)).mp h'
          exact ⟨List.mem_cons_of_mem x h1,
            fun hs => h2 (List.mem_cons_of_mem x hs)⟩
      · rintro ⟨h1, h2⟩
        rcases List.mem_cons.mp h1 with rfl | h1'
        · exact List.mem_cons_self a _
        · by_cases hax : a = x
          · subst hax
            exact List.mem_cons_self a _
          · refine List.mem_cons_of_mem x ((ih (x :: seen)).mpr ⟨h1', ?_⟩)
            intro hs
            rcases List.mem_cons.mp hs with h | h
            · exact hax h
            · exact h2 h

theorem mem_dedupFirst (a : β) (l : List β) : a ∈ dedupFirst l ↔ a ∈ l := by
  rw [dedupFirst, mem_dedupFirstAux]
  simp

theorem dedupFirstAux_sublist (seen l : List β) :
    (dedupFirstAux seen l).Sublist l := by
  induction l generalizing seen with
  | nil => simp [dedupFirstAux]
  | cons x xs ih =>
    simp only [dedupFirstAux]
    by_cases hx : x ∈ seen
    · rw [if_pos hx]
      exact (ih seen).cons x
    · rw [if_neg hx]
      exact (ih (x :: seen)).cons₂ x

theorem dedupFirst_sublist (l : List β) : (dedupFirst l).Sublist l :=
  dedupFirstAux_sublist [] l

theorem nodup_dedupFirstAux (seen l : List β) : (dedupFirstAux seen l).Nodup := by
  induction l generalizing seen with
  | nil => simp [dedupFirstAux]
  | cons x xs ih =>
    simp only [dedupFirstAux]
    by_cases hx : x ∈ seen
    · rw [if_pos hx]
      exact ih seen
    · rw [if_neg hx, List.nodup_cons]
      refine ⟨fun hm => ?_, ih (x :: seen)⟩
      obtain ⟨-, h2⟩ := (mem_dedupFirstAux x (x :: seen) xs).mp hm
      exact h2 (List.mem_cons_self x seen)

theorem nodup_dedupFirst (l : List β) : (dedupFirst l).Nodup :=
  nodup_dedupFirstAux [] l

theorem dupMarks_eq_zero_iff (seen l : List β) :
    dupMarks seen l = 0 ↔ (∀ x ∈ l, x ∉ seen) ∧ l.Nodup := by
  induction l generalizing seen with
  | nil => simp [dupMarks]
  | cons x xs ih =>
    simp only [dupMarks]
    by_cases hx : x ∈ seen
    · rw [if_pos hx]
      constructor
      · intro h
        exact absurd h (by omega)
      · rintro ⟨h1, -⟩
        exact absurd hx (h1 x (List.mem_cons_self x xs))
    · rw [if_neg hx, Nat.zero_add, ih]
      constructor
      · rintro ⟨h1, h2⟩
        refine ⟨?_, ?_⟩
        · intro y hy
          rcases List.mem_cons.mp hy with rfl | hy'
          · exact hx
          · exact fun hs => h1 y hy' (List.mem_cons_of_mem x hs)
        · rw [List.nodup_cons]
          exact ⟨fun hxx => (h1 x hxx) (List.mem_cons_self x seen), h2⟩
      · rintro ⟨h1, h2⟩
        rw [List.nodup_cons] at h2
        refine ⟨?_, h2.2⟩
        intro y hy hs
        rcases List.mem_cons.mp hs with rfl | hs'
        · exact h2.1 hy
        · exact h1 y (List.mem_cons_of_mem x hy) hs'

theorem duplicatedSum_eq_zero_iff (l : List β) :
    duplicatedSum l = 0 ↔ l.Nodup := by
  rw [duplicatedSum, dupMarks_eq_zero_iff]
  simp

theorem nodup_of_filterMap_id_length :
    ∀ l : List (Cell α), (l.filterMap id).length = l.length →
      (l.filterMap id).Nodup → l.Nodup := by
  intro l
  induction l with
  | nil => simp
  | cons x xs ih =>
    cases x with
    | none =>
      intro h _
      exfalso
      have e : (List.filterMap id (none :: xs) : List α) = List.filterMap id xs := rfl
      rw [e, List.length_cons] at h
      have := List.length_filterMap_le (@id (Option α)) xs
      omega
    | some a =>
      intro h hn
      have e : List.filterMap id (some a :: xs) = a :: List.filterMap id xs := rfl
      rw [e, List.length_cons, List.length_cons] at h
      rw [e, List.nodup_cons] at hn
      rw [List.nodup_cons]
      refine ⟨fun hm => hn.1 (List.mem_filterMap.mpr ⟨some a, hm, rfl⟩), ?_⟩
      exact ih (by omega) hn.2

theorem nodup_colValues_of_nunique (s : Snapshot α) (c : String)
    (h : nunique s c = s.rows.length) : (colValues s c).Nodup := by
  have hlen : (colValues s c).length = s.rows.length := by
    simp [colValues]
  rw [nunique] at h
  have h1 : (dedupFirst ((colValues s c).filterMap id)).length ≤
      ((colValues s c).filterMap id).length :=
    (dedupFirst_sublist _).length_le
  have h2 : ((colValues s c).filterMap id).length ≤ (colValues s c).length :=
    List.length_filterMap_le _ _
  have e1 : (dedupFirst ((colValues s c).filterMap id)).length =
      ((colValues s c).filterMap id).length := by omega
  have e3 : dedupFirst ((colValues s c).filterMap id) =
      (colValues s c).filterMap id :=
    (dedupFirst_sublist _).eq_of_length e1
  have hnd : ((colValues s c).filterMap id).Nodup := by
    rw [← e3]
    exact nodup_dedupFirst _
  exact nodup_of_filterMap_id_length (colValues s c) (by omega) hnd

theorem duplicatedSum_colValues_of_nunique (s : Snapshot α) (c : String)
    (h : nunique s c = s.rows.length) : duplicatedSum (colValues s c) = 0 :=
  (duplicatedSum_eq_zero_iff _).mpr (nodup_colValues_of_nunique s c h)

theorem findSome?_const_none {γ δ : Type} (l : List δ) :
    (l.findSome? fun _ => (none : Option γ)) = none := by
  induction l with
  | nil => rfl
  | cons x xs ih =>
    rw [List.findSome?_cons]
    exact ih

theorem findSome?_const_some {γ δ : Type} (l : List δ) (o : Option γ) (c : γ)
    (h : (l.findSome? fun _ => o) = some c) : o = some c := by
  induction l with
  | nil => simp [List.findSome?_nil] at h
  | cons x xs ih =>
    rw [List.findSome?_cons] at h
    cases ho : o with
    | some d =>
      subst ho
      exact h
    | none =>
      subst ho
      exact ih h

theorem mem_cols_of_potentialKeys {s : Snapshot α} {c : String}
    (h : c ∈ potentialKeys s) : c ∈ s.cols :=
  (List.mem_filter.mp h).1

theorem fallbackScan_of_unique {s : Snapshot α} {c0 : String}
    (hc0 : c0 ∈ s.cols) (hu : nunique s c0 = s.rows.length) :
    ∃ c, (fallbackScan s).key = PyKey.asList [c] ∧
      duplicatedSum (colValues s c) = 0 := by
  cases hf : s.cols.find? (fun c => nunique s c == s.rows.length) with
  | some c =>
    refine ⟨c, ?_, ?_⟩
    · rw [fallbackScan, hf]
    · have hp := List.find?_some hf
      exact duplicatedSum_colValues_of_nunique s c (by simpa using hp)
  | none =>
    exfalso
    have := List.find?_eq_none.mp hf c0 hc0
    simp [hu] at this

/-! Claim theorems. -/

/-- C1: on exC1 no single candidate column (id, code) is unique, and the
size-2 combination (id, code) has zero duplicate composite keys, so the
specified search over combinations of sizes 2..N would return it; the
code instead falls through to the warning branch and returns the full
column set, because its combination loop never forms a combination (the
loop variable i is unused and only single deduplicated candidate names
are tested). -/
theorem C1_combination_search_degenerate :
    potentialKeys exC1 = ["id", "code"] ∧
    nunique exC1 "id" ≠ exC1.rows.length ∧
    nunique exC1 "code" ≠ exC1.rows.length ∧
    duplicatedSum (exC1.rows.map (fun r => rowKey ["id", "code"] r)) = 0 ∧
    identify_key_columns exC1 = ⟨PyKey.asList ["id", "code", "x"], true⟩ := by
  decide

/-- C2 counterexample: the column sets of exC2newer and exC2older differ
(the newer has the extra column Notes), the diff is non-empty, and every
emitted detail row carries only the common column id - not the newer
snapshot's full original column set, contrary to the claim. -/
theorem C2_counterexample_extra_column_dropped :
    sameColSet exC2newer exC2older = false ∧
    "Notes" ∈ exC2newer.cols ∧
    (compare exC2newer exC2older).newEntries.map (fun r => r.map Prod.fst) =
      [["id"]] := by
  decide

/-- C2 (amended): when the column sets differ, key computation is
restricted to the common columns and every emitted detail row carries
exactly the common columns; the newer snapshot's extra columns are
dropped from the detail rows as well. -/
theorem C2_detail_rows_carry_common_columns (n o : Snapshot α)
    (h : sameColSet n o = false) :
    ((compare n o).newEntries.all
      (fun r => decide (r.map Prod.fst = commonColumns n.cols o.cols))) = true := by
  rw [List.all_eq_true]
  intro r hr
  simp only [compare, h, Bool.false_eq_true, if_false] at hr
  rw [newEntriesOf] at hr
  have hr2 := List.mem_of_mem_filter hr
  simp only [selectCols] at hr2
  obtain ⟨r0, -, rfl⟩ := List.mem_map.mp hr2
  simp only [decide_eq_true_eq, List.map_map]
  have e : (Prod.fst ∘ fun c => (c, cellAt r0 c)) = fun c : String => c := rfl
  rw [e, List.map_id']

/-- C2 witness: the amended statement holds on the Notes example. -/
theorem C2_detail_rows_carry_common_columns_witness :
    sameColSet exC2newer exC2older = false ∧
    ((compare exC2newer exC2older).newEntries.all
      (fun r => decide (r.map Prod.fst =
        commonColumns exC2newer.cols exC2older.cols))) = true :=
  ⟨by decide, C2_detail_rows_carry_common_columns exC2newer exC2older (by decide)⟩

/-- C3 counterexample: in exC3 the only column whose distinct-value count
equals the row count is x, yet inference returns the bare candidate name
id (whose distinct-value count is smaller, its column holding a missing
value), because the degenerate combination scan tests single candidates
with duplicated-semantics, under which missing values compare equal. -/
theorem C3_counterexample_missing_values :
    nunique exC3 "x" = exC3.rows.length ∧
    nunique exC3 "id" ≠ exC3.rows.length ∧
    nunique exC3 "no" ≠ exC3.rows.length ∧
    identify_key_columns exC3 = ⟨PyKey.asStr "id", false⟩ := by
  decide

/-- C3 (amended): if some column's distinct-value count equals the row
count then inference returns a single column (never a composite), and
the returned column is duplicate-free when missing values are compared
as equal; it need not be the distinct-count-unique column itself when a
candidate column contains missing values. -/
theorem C3_single_unique_column_preferred (s : Snapshot α)
    (h : ∃ c ∈ s.cols, nunique s c = s.rows.length) :
    ∃ c, keyColsOf (identify_key_columns s).key = [c] ∧
      duplicatedSum (colValues s c) = 0 := by
  obtain ⟨c0, hc0, hu0⟩ := h
  rw [identify_key_columns]
  by_cases hpk : (potentialKeys s).isEmpty
  · rw [if_pos hpk]
    obtain ⟨c, hkey, hdup⟩ := fallbackScan_of_unique hc0 hu0
    exact ⟨c, by rw [hkey]; rfl, hdup⟩
  · rw [if_neg hpk]
    cases hfind : (potentialKeys s).find? (fun c => nunique s c == s.rows.length) with
    | some c =>
      have hp := List.find?_some hfind
      exact ⟨c, rfl, duplicatedSum_colValues_of_nunique s c (by simpa using hp)⟩
    | none =>
      cases hcs : comboScan s (potentialKeys s) with
      | some c =>
        have h1 : (dedupFirst (potentialKeys s)).find?
            (fun c => duplicatedSum (colValues s c) == 0) = some c := by
          rw [comboScan] at hcs
          exact findSome?_const_some _ _ _ hcs
        have hp := List.find?_some h1
        exact ⟨c, rfl, by simpa using hp⟩
      | none =>
        obtain ⟨c, hkey, hdup⟩ := fallbackScan_of_unique hc0 hu0
        exact ⟨c, by rw [hkey]; rfl, hdup⟩

/-- C3 witness: the amended statement holds on a snapshot with a unique
id column. -/
theorem C3_single_unique_column_preferred_witness :
    (∃ c ∈ exUnique.cols, nunique exUnique c = exUnique.rows.length) ∧
    ∃ c, keyColsOf (identify_key_columns exUnique).key = [c] ∧
      duplicatedSum (colValues exUnique c) = 0 :=
  ⟨by decide, C3_single_unique_column_preferred exUnique (by decide)⟩

/-- C4: a column-set mismatch is tolerated: both frames are restricted
to the intersection of the column names, the columns dropped from each
side are recorded as diagnostics, and the key is inferred from the newer
snapshot only after the restriction. -/
theorem C4_column_mismatch_tolerated (n o : Snapshot α)
    (h : sameColSet n o = false) :
    ((compare n o).restrictedNewer).cols.toFinset =
        n.cols.toFinset ∩ o.cols.toFinset ∧
      ((compare n o).restrictedOlder).cols.toFinset =
        n.cols.toFinset ∩ o.cols.toFinset ∧
      (compare n o).droppedNewer.toFinset = n.cols.toFinset \ o.cols.toFinset ∧
      (compare n o).droppedOlder.toFinset = o.cols.toFinset \ n.cols.toFinset ∧
      (compare n o).inference =
        identify_key_columns ((compare n o).restrictedNewer) := by
  have hcommon : ∀ a b : List String,
      (commonColumns a b).toFinset = a.toFinset ∩ b.toFinset := by
    intro a b
    ext c
    simp [commonColumns, mem_dedupFirst, List.mem_filter]
  have honly : ∀ a b : List String,
      (onlyInFirst a b).toFinset = a.toFinset \ b.toFinset := by
    intro a b
    ext c
    simp [onlyInFirst, mem_dedupFirst, List.mem_filter]
  simp only [compare, h, Bool.false_eq_true, if_false, selectCols]
  exact ⟨hcommon _ _, hcommon _ _, honly _ _, honly _ _, trivial⟩

/-- C4 witness: the mismatch handling on a concrete pair whose column
sets differ on both sides. -/
theorem C4_column_mismatch_tolerated_witness :
    sameColSet exC4newer exC4older = false ∧
    (((compare exC4newer exC4older).restrictedNewer).cols.toFinset =
        exC4newer.cols.toFinset ∩ exC4older.cols.toFinset ∧
      ((compare exC4newer exC4older).restrictedOlder).cols.toFinset =
        exC4newer.cols.toFinset ∩ exC4older.cols.toFinset ∧
      (compare exC4newer exC4older).droppedNewer.toFinset =
        exC4newer.cols.toFinset \ exC4older.cols.toFinset ∧
      (compare exC4newer exC4older).droppedOlder.toFinset =
        exC4older.cols.toFinset \ exC4newer.cols.toFinset ∧
      (compare exC4newer exC4older).inference =
        identify_key_columns ((compare exC4newer exC4older).restrictedNewer)) :=
  ⟨by decide, C4_column_mismatch_tolerated exC4newer exC4older (by decide)⟩

/-- C5: the differ's output is a subsequence of the newer snapshot's rows
in their original order (it neither sorts nor reorders), both for the
differ on given frames and for the full comparison on the restricted
newer frame. -/
theorem C5_new_rows_subsequence (kc : List String) (n o : Snapshot α) :
    (newEntriesOf kc n o).Sublist n.rows ∧
      ((compare n o).newEntries).Sublist ((compare n o).restrictedNewer).rows := by
  constructor
  · rw [newEntriesOf]
    exact List.filter_sublist _
  · by_cases h : sameColSet n o = true
    · simp only [compare, h, if_true]
      exact List.filter_sublist _
    · simp only [compare, h, Bool.false_eq_true, if_false]
      exact List.filter_sublist _

/-- C6: all rows of the newer snapshot sharing a duplicated key that is
absent from the older snapshot survive into the diff result: filtering
the diff by that key gives back exactly the newer snapshot's rows with
that key. -/
theorem C6_duplicate_keys_all_reported (kc : List String) (n o : Snapshot α)
    (key : List (Cell α))
    (hdup : 2 ≤ (n.rows.filter (fun r => decide (rowKey kc r = key))).length)
    (habs : key ∉ snapshotKeys kc o) :
    (newEntriesOf kc n o).filter (fun r => decide (rowKey kc r = key)) =
      n.rows.filter (fun r => decide (rowKey kc r = key)) := by
  rw [newEntriesOf, List.filter_filter]
  apply List.filter_congr
  intro r hr
  by_cases hk : rowKey kc r = key
  · have hmem : rowKey kc r ∈
        indexDiff (snapshotKeys kc n) (snapshotKeys kc o) := by
      rw [indexDiff, mem_dedupFirst]
      refine List.mem_filter.mpr ⟨?_, ?_⟩
      · exact List.mem_map.mpr ⟨r, hr, rfl⟩
      · simp [hk, habs]
    rw [hk] at hmem
    simp [hk, hmem]
  · simp [hk]

/-- C6 witness: both occurrences of the duplicated key id=5 are kept. -/
theorem C6_duplicate_keys_all_reported_witness :
    2 ≤ (exC6newer.rows.filter
        (fun r => decide (rowKey ["id"] r = [some 5]))).length ∧
    [(some 5 : Cell Nat)] ∉ snapshotKeys ["id"] exC6older ∧
    (newEntriesOf ["id"] exC6newer exC6older).filter
        (fun r => decide (rowKey ["id"] r = [some 5])) =
      exC6newer.rows.filter (fun r => decide (rowKey ["id"] r = [some 5])) :=
  ⟨by decide, by decide,
    C6_duplicate_keys_all_reported ["id"] exC6newer exC6older [some 5]
      (by decide) (by decide)⟩

/-- C7: diffing any snapshot against itself yields zero new rows, for
every key column list. -/
theorem C7_self_diff_empty (kc : List String) (s : Snapshot α) :
    newEntriesOf kc s s = [] := by
  have hd : indexDiff (snapshotKeys kc s) (snapshotKeys kc s) = [] := by
    rw [indexDiff]
    have hfl : (snapshotKeys kc s).filter
        (fun k => decide (k ∉ snapshotKeys kc s)) = [] :=
      List.filter_eq_nil_iff.mpr (fun k hk => by simp [hk])
    rw [hfl]
    rfl
  rw [newEntriesOf, hd]
  apply List.filter_eq_nil_iff.mpr
  intro r hr
  simp

/-- C8: on a zero-row snapshot with a non-empty column set, inference
returns a single-column key without the warning, and diffing zero-row
snapshots yields zero new rows. -/
theorem C8_empty_snapshot_safe (s o : Snapshot α) (kc : List String)
    (hr : s.rows = []) (hc : s.cols ≠ []) (ho : o.rows = []) :
    (∃ c ∈ s.cols, (identify_key_columns s).key = PyKey.asList [c]) ∧
      (identify_key_columns s).warned = false ∧
      newEntriesOf kc s o = [] := by
  have hpred : ∀ c, (nunique s c == s.rows.length) = true := by
    intro c
    have hcv : colValues s c = [] := by simp [colValues, hr]
    simp [nunique, hcv, dedupFirst, dedupFirstAux, hr]
  have hmain : ∃ c ∈ s.cols,
      identify_key_columns s = ⟨PyKey.asList [c], false⟩ := by
    by_cases hpk : (potentialKeys s).isEmpty
    · cases hcols : s.cols with
      | nil => exact absurd hcols hc
      | cons c cs =>
        refine ⟨c, List.mem_cons_self c cs, ?_⟩
        have hfind : List.find? (fun x => nunique s x == s.rows.length) (c :: cs) =
            some c :=
          List.find?_cons_of_pos _ (hpred c)
        rw [identify_key_columns, if_pos hpk, fallbackScan, hcols, hfind]
    · cases hpk2 : potentialKeys s with
      | nil =>
        rw [hpk2] at hpk
        simp at hpk
      | cons c cs =>
        refine ⟨c, mem_cols_of_potentialKeys
          (by rw [hpk2]; exact List.mem_cons_self c cs), ?_⟩
        have hfind : List.find? (fun x => nunique s x == s.rows.length) (c :: cs) =
            some c :=
          List.find?_cons_of_pos _ (hpred c)
        rw [identify_key_columns, if_neg hpk, hpk2, hfind]
  obtain ⟨c, hcm, heq⟩ := hmain
  refine ⟨⟨c, hcm, by rw [heq]⟩, by rw [heq], ?_⟩
  simp [newEntriesOf, hr]

/-- C8 witness: the empty snapshot with the single column id. -/
theorem C8_empty_snapshot_safe_witness :
    exEmpty.rows = [] ∧ exEmpty.cols ≠ [] ∧
    ((∃ c ∈ exEmpty.cols,
        (identify_key_columns exEmpty).key = PyKey.asList [c]) ∧
      (identify_key_columns exEmpty).warned = false ∧
      newEntriesOf ["id"] exEmpty exEmpty = []) :=
  ⟨rfl, by decide, C8_empty_snapshot_safe exEmpty exEmpty ["id"] rfl (by decide) rfl⟩

/-- C9: when every column has a duplicate value (missing values compared
as equal) and no candidate combination is duplicate-free, inference does
not fail: it returns the full column set as the key and flags the
warning diagnostic. -/
theorem C9_no_unique_key_full_columns (s : Snapshot α)
    (h1 : ∀ c ∈ s.cols, duplicatedSum (colValues s c) ≠ 0)
    (h2 : ∀ l ∈ (potentialKeys s).sublists, 2 ≤ l.length →
      duplicatedSum (s.rows.map (fun r => rowKey l r)) ≠ 0) :
    (identify_key_columns s).key = PyKey.asList s.cols ∧
      (identify_key_columns s).warned = true := by
  have hnu : ∀ c ∈ s.cols, ¬((nunique s c == s.rows.length) = true) := by
    intro c hc hb
    exact h1 c hc (duplicatedSum_colValues_of_nunique s c (by simpa using hb))
  have hfall : fallbackScan s = ⟨PyKey.asList s.cols, true⟩ := by
    rw [fallbackScan, List.find?_eq_none.mpr hnu]
  rw [identify_key_columns]
  by_cases hpk : (potentialKeys s).isEmpty
  · rw [if_pos hpk, hfall]
    exact ⟨rfl, rfl⟩
  · rw [if_neg hpk]
    have hf1 : (potentialKeys s).find?
        (fun c => nunique s c == s.rows.length) = none :=
      List.find?_eq_none.mpr (fun c hc => hnu c (mem_cols_of_potentialKeys hc))
    have hinner : (dedupFirst (potentialKeys s)).find?
        (fun c => duplicatedSum (colValues s c) == 0) = none := by
      apply List.find?_eq_none.mpr
      intro c hc hb
      exact h1 c (mem_cols_of_potentialKeys ((mem_dedupFirst c _).mp hc))
        (by simpa using hb)
    have hcs : comboScan s (potentialKeys s) = none := by
      rw [comboScan, hinner]
      exact findSome?_const_none _
    rw [hf1, hcs, hfall]
    exact ⟨rfl, rfl⟩

/-- C9 witness: two identical rows over the single candidate column id. -/
theorem C9_no_unique_key_full_columns_witness :
    (∀ c ∈ exC9.cols, duplicatedSum (colValues exC9 c) ≠ 0) ∧
    (∀ l ∈ (potentialKeys exC9).sublists, 2 ≤ l.length →
      duplicatedSum (exC9.rows.map (fun r => rowKey l r)) ≠ 0) ∧
    ((identify_key_columns exC9).key = PyKey.asList exC9.cols ∧
      (identify_key_columns exC9).warned = true) :=
  ⟨by decide, by decide,
    C9_no_unique_key_full_columns exC9 (by decide) (by decide)⟩

/-- C10: whenever the diff is non-empty a report is emitted whose summary
count of new entries equals the length of its detail table, and both
equal the length of the computed diff. -/
theorem C10_report_consistent (n o : Snapshot α)
    (h : 0 < (compare n o).newEntries.length) :
    ∃ rep : Report α, emitReport (compare n o) = some rep ∧
      rep.newEntriesFound = rep.detail.length ∧
      rep.detail.length = (compare n o).newEntries.length := by
  refine ⟨⟨(compare n o).restrictedNewer.rows.length,
    (compare n o).restrictedOlder.rows.length,
    (compare n o).newEntries.length, (compare n o).newEntries⟩, ?_, rfl, rfl⟩
  rw [emitReport, if_pos h]

/-- C10 witness: a comparison with one new entry. -/
theorem C10_report_consistent_witness :
    0 < (compare exC10newer exC10older).newEntries.length ∧
    ∃ rep : Report Nat, emitReport (compare exC10newer exC10older) = some rep ∧
      rep.newEntriesFound = rep.detail.length ∧
      rep.detail.length = (compare exC10newer exC10older).newEntries.length :=
  ⟨by decide, C10_report_consistent exC10newer exC10older (by decide)⟩

end URA
